import Mathlib

/-!
Verification of the response-cache and request-deduplication subsystem of
the perplexity-mcp-server repository. The definitions below are a shallow
embedding of the cache service module (cacheService: generateCacheKey,
getCachedResponse, setCachedResponse, deduplicatedRequest,
getFileContentHash, getCachedFile, setCachedFile, getCacheStats) and of
the TTL selector determineCacheTTL of the Perplexity API service.
Machine time is modelled as a Nat of milliseconds; promises are modelled
by identifiers allocated from a counter.
-/

namespace CacheService

/-- Model of a JavaScript Map keyed by strings: an association list with at
most one live entry per key. mapGet is Map.get. -/
def mapGet {α : Type} (k : String) (m : List (String × α)) : Option α :=
  (m.find? (fun e => e.1 == k)).map (fun e => e.2)

/-- Map.delete: removes the entry for the key, if any. -/

def mapDelete {α : Type} (k : String) (m : List (String × α)) : List (String × α) :=
  m.filter (fun e => e.1 != k)

/-- Map.set: overwrites any existing entry for the key. -/

def mapSet {α : Type} (k : String) (v : α) (m : List (String × α)) : List (String × α) :=
  (k, v) :: mapDelete k m

/-- Outcome with which a fetch settles: the promise resolves or rejects. -/
inductive Outcome
  | resolved
  | rejected
deriving DecidableEq

/-- State of the in-flight request registry (the module-level Map
inFlightRequests), together with a log of fetcher invocations and a counter
allocating fresh promise identities. fetchLog records, most recent first,
the key of every fetcher invocation that has started. -/

structure DedupState where
  inFlight : List (String × Nat)
  fetchLog : List String
  nextPromise : Nat
deriving DecidableEq

/-- The empty registry at process start. -/

def DedupState.initial : DedupState :=
  { inFlight := [], fetchLog := [], nextPromise := 0 }

/-- Number of fetcher invocations that have started for the key. -/

def fetchCount (key : String) (s : DedupState) : Nat :=
  s.fetchLog.count key

/-- Synchronous body of deduplicatedRequest from the cache service: if an
entry for the key is in flight, return that same promise; otherwise invoke
the fetcher (allocating a fresh promise) and insert the promise into the
registry, all in one synchronous block with no suspension point. Returns
the promise the caller awaits. -/

def deduplicatedRequest (key : String) (s : DedupState) : Nat × DedupState :=
  match mapGet key s.inFlight with
  | some p => (p, s)
  | none =>
      (s.nextPromise,
        { inFlight := mapSet key s.nextPromise s.inFlight
          fetchLog := key :: s.fetchLog
          nextPromise := s.nextPromise + 1 })

/-- The finally callback attached to the fetcher's promise: when the fetch
settles, with either outcome, the registry entry for the key is deleted. -/

def settleFetch (key : String) (_o : Outcome) (s : DedupState) : DedupState :=
  { s with inFlight := mapDelete key s.inFlight }

/-- Runs c successive calls of deduplicatedRequest for one key with no
settlement in between (the callers all arrive before the fetch settles);
returns the promises handed to the callers and the final state. -/

def dedupCalls (key : String) (c : Nat) (s : DedupState) : List Nat × DedupState :=
  match c with
  | 0 => ([], s)
  | n + 1 =>
      let r := deduplicatedRequest key s
      let rest := dedupCalls key n r.2
      (r.1 :: rest.1, rest.2)

/-- Observable micro-events of the miss branch of deduplicatedRequest.
suspend marks a point at which the body of deduplicatedRequest would yield
control to the event loop. -/
inductive DedupEvent
  | registryCheck
  | fetcherInvoked
  | registryInsert
  | suspend
deriving DecidableEq

/-- Micro-events of the miss branch of deduplicatedRequest in the order the
source executes them: the registry membership check, then the invocation of
the fetcher (whose synchronous prefix runs at once), then the insertion of
the resulting promise into the registry. No suspension point occurs in the
body: the whole branch is one synchronous block. -/

def dedupMissEvents : List DedupEvent :=
  [DedupEvent.registryCheck, DedupEvent.fetcherInvoked, DedupEvent.registryInsert]

/-- Cache TTL table of the cache service, in milliseconds. -/
def CACHE_TTL.technical : Nat := 1000 * 60 * 60

/-- General-knowledge TTL, 30 minutes; also the response-cache default. -/

def CACHE_TTL.general : Nat := 1000 * 60 * 30

/-- Volatile-data TTL, 5 minutes. -/

def CACHE_TTL.volatile : Nat := 1000 * 60 * 5

/-- Deep-research TTL, 2 hours. -/

def CACHE_TTL.deepResearch : Nat := 1000 * 60 * 60 * 2

/-- File-attachment TTL, 1 hour. -/

def CACHE_TTL.file : Nat := 1000 * 60 * 60

/-- Fields of WebSearchOptions that the TTL selector reads. -/

structure WebSearchOptions where
  search_recency_filter : Option String
deriving DecidableEq

/-- Fields of PerplexityChatCompletionRequest that the TTL selector reads. -/

structure PerplexityChatCompletionRequest where
  model : String
  search_recency_filter : Option String
  web_search_options : Option WebSearchOptions
deriving DecidableEq

/-- determineCacheTTL of the Perplexity API service, translated clause for
clause: deep research first, then the last-day recency filter (at top level
or inside web_search_options), then the last-week filter, then the general
default. -/

def determineCacheTTL (r : PerplexityChatCompletionRequest) : Nat :=
  if r.model = "sonar-deep-research" then
    CACHE_TTL.deepResearch
  else if r.search_recency_filter = some "last_day" ∨
      (r.web_search_options.bind (fun w => w.search_recency_filter)) = some "last_day" then
    CACHE_TTL.volatile
  else if r.search_recency_filter = some "last_week" ∨
      (r.web_search_options.bind (fun w => w.search_recency_filter)) = some "last_week" then
    CACHE_TTL.general
  else
    CACHE_TTL.general

/-- Modelled from the spec: the TTL Policy Selector as section 4.3 states
it — ordered rules, first match wins; an expensive deep multi-step research
request gets the longest duration (2 hours), else a request restricted to
the most recent day gets the shortest (5 minutes), else a request
restricted to the most recent week gets 30 minutes (the same value as the
default), else the general default of 30 minutes. Restriction to a recency
window means the request carries that recency filter at top level or in its
web-search options. -/

def selectTTL_spec (r : PerplexityChatCompletionRequest) : Nat :=
  if r.model = "sonar-deep-research" then
    7200000
  else if r.search_recency_filter = some "last_day" ∨
      (r.web_search_options.bind (fun w => w.search_recency_filter)) = some "last_day" then
    300000
  else if r.search_recency_filter = some "last_week" ∨
      (r.web_search_options.bind (fun w => w.search_recency_filter)) = some "last_week" then
    1800000
  else
    1800000

/-- JSON values, the serializable inputs of the canonicalizer: request
parameter records are objects whose fields are JSON values. -/
inductive Json where
  | null
  | bool (b : Bool)
  | num (n : Int)
  | str (s : String)
  | arr (elems : List Json)
  | obj (fields : List (String × Json))

/-- Quotation of a JSON string literal. Escaping of control characters is
not modelled; the claims do not depend on it. -/

def jsonQuote (s : String) : String := "\"" ++ s ++ "\""

/-- Key order used by the stable serializer: fields compare by key only. -/

def keyLE (a b : String × String) : Prop := a.1 ≤ b.1

instance : DecidableRel keyLE := fun a b => inferInstanceAs (Decidable (a.1 ≤ b.1))

instance : IsTotal (String × String) keyLE := ⟨fun a b => le_total a.1 b.1⟩

instance : IsTrans (String × String) keyLE := ⟨fun _ _ _ h1 h2 => le_trans h1 h2⟩

/-- Fields with their values already serialized, sorted by key ascending. -/

def sortFields (fs : List (String × String)) : List (String × String) :=
  List.insertionSort keyLE fs

/-- Rendering of serialized fields as JSON object members. -/

def fieldStrings (fs : List (String × String)) : List String :=
  fs.map (fun f => jsonQuote f.1 ++ ":" ++ f.2)

mutual

/-- Modelled from the spec: the stable order-independent serialization the
canonicalizer uses (the fast-json-stable-stringify dependency, which is not
part of this repository's sources): scalars serialize as JSON literals,
arrays element-wise in order, and objects by emitting their fields sorted
by key ascending, so that two objects with the same fields in different
insertion order yield byte-identical serializations. -/
def serializeJson : Json → String
  | .null => "null"
  | .bool b => if b then "true" else "false"
  | .num n => toString n
  | .str s => jsonQuote s
  | .arr es => "[" ++ String.intercalate "," (serializeList es) ++ "]"
  | .obj fs =>
      "\x7b" ++ String.intercalate "," (fieldStrings (sortFields (serializeFields fs))) ++ "\x7d"

def serializeList : List Json → List String
  | [] => []
  | j :: t => serializeJson j :: serializeList t

def serializeFields : List (String × Json) → List (String × String)
  | [] => []
  | (k, v) :: t => (k, serializeJson v) :: serializeFields t

end

/-- Stable stringification of a parameter record: the serialization of the
record viewed as a JSON object. -/

def stableStringify (params : List (String × Json)) : String :=
  serializeJson (Json.obj params)

/-- Modelled from the spec: the cryptographic hash applied by the
canonicalizer (the Node crypto library's SHA-256, not part of this
repository's sources) is modelled as a deterministic fixed-width digest:
the input's characters are absorbed into a 256-bit accumulator which is
then printed as exactly 64 lowercase hex digits. The model keeps what the
claims rely on: determinism, dependence only on the input string, and a
fixed-length hex output. -/

def digest256 (s : String) : Nat :=
  s.data.foldl (fun a c => (a * 256 + c.toNat) % (2 ^ 256)) 0

/-- Hex digit extraction for the digest printer. -/

def hexDigitAt (d i : Nat) : Char :=
  Nat.digitChar ((d / 16 ^ (63 - i)) % 16)

/-- Hex-printed 256-bit digest: always exactly 64 characters. -/

def sha256hex (s : String) : String :=
  String.mk ((List.range 64).map (hexDigitAt (digest256 s)))

/-- generateCacheKey from the cache service: stable stringification of the
parameter record followed by the SHA-256 hex digest. -/

def generateCacheKey (params : List (String × Json)) : String :=
  sha256hex (stableStringify params)

/-- File content as the cache service receives it: a JavaScript string or a
Buffer of raw bytes. -/
inductive FileContent where
  | text (s : String)
  | buffer (bytes : List Nat)
deriving DecidableEq

/-- Standard base64 alphabet. -/

def base64Table : List Char :=
  "ABCDEFGHIJKLMNOPQRSTUVWXYZabcdefghijklmnopqrstuvwxyz0123456789+/".data

/-- Character of the base64 alphabet at a 6-bit index. -/

def b64Char (n : Nat) : Char := base64Table.getD n 'A'

/-- Base64 encoding of a byte sequence (Buffer.toString with base64),
three bytes to four characters with trailing padding. -/

def base64Encode : List Nat → String
  | [] => ""
  | [b1] => String.mk [b64Char (b1 / 4), b64Char (b1 % 4 * 16), '=', '=']
  | [b1, b2] =>
      String.mk [b64Char (b1 / 4), b64Char (b1 % 4 * 16 + b2 / 16),
        b64Char (b2 % 16 * 4), '=']
  | b1 :: b2 :: b3 :: rest =>
      String.mk [b64Char (b1 / 4), b64Char (b1 % 4 * 16 + b2 / 16),
          b64Char (b2 % 16 * 4 + b3 / 64), b64Char (b3 % 64)] ++
        base64Encode rest

/-- View of a byte sequence as the string of the same raw bytes (one
character per byte), for comparing a Buffer with the equal-bytes string. -/

def bytesAsString (bytes : List Nat) : String :=
  String.mk (bytes.map Char.ofNat)

/-- getFileContentHash from the cache service: a string argument is hashed
directly; a Buffer is first base64-encoded and the base64 text is hashed. -/

def getFileContentHash : FileContent → String
  | .text s => sha256hex s
  | .buffer bytes => sha256hex (base64Encode bytes)

/-- Stored value of a response-cache entry: a serializable JSON value, or a
value JSON.stringify rejects (cyclic, or otherwise non-serializable). -/

inductive CacheValue where
  | json (j : Json)
  | nonSerializable

/-- JSON.stringify over a stored value: succeeds exactly on serializable
values. -/

def tryStringify : CacheValue → Option String
  | .json j => some (serializeJson j)
  | .nonSerializable => none

/-- Structure of cached API responses (CachedResponse in the source). -/

structure CachedResponse where
  data : CacheValue
  timestamp : Nat
  model : String

/-- Structure of cached file content (CachedFile in the source). -/

structure CachedFile where
  base64 : String
  mimeType : String
  sourceUrl : Option String
  size : Nat
deriving DecidableEq

/-- sizeCalculation of the response cache: the length of the JSON
serialization of the stored data, with a fixed fallback of 1000 when
serialization throws, so the estimator itself never raises. -/

def responseSizeCalculation (v : CachedResponse) : Nat :=
  match tryStringify v.data with
  | some s => s.length
  | none => 1000

/-- One entry of a bounded LRU store, carrying its approximate size (fixed
at insertion), its insertion time and its TTL. -/

structure LRUEntry (α : Type) where
  value : α
  size : Nat
  insertedAt : Nat
  ttl : Nat
deriving DecidableEq

/-- Configuration of a bounded LRU store: maximum entry count, maximum
aggregate approximate size, default TTL, and the per-entry size estimator. -/

structure LRUConfig (α : Type) where
  maxEntries : Nat
  maxSize : Nat
  defaultTTL : Nat
  sizeCalc : α → Nat

/-- Modelled from the spec: state of a bounded LRU store (the lru-cache
npm dependency, not part of this repository's sources), as section 4.2
describes it: entries in recency order, most recently used first, so the
least recently used entry is last. -/

structure LRUState (α : Type) where
  entries : List (String × LRUEntry α)

/-- The empty store. -/

def LRUState.empty {α : Type} : LRUState α := ⟨[]⟩

/-- Aggregate approximate size of a list of entries. -/

def totalSize {α : Type} (l : List (String × LRUEntry α)) : Nat :=
  (l.map (fun e => e.2.size)).sum

/-- Modelled from the spec: eviction loop of the bounded store — while the
entry count or the aggregate size exceeds its bound, the least recently
used entry (the last) is evicted. Structured with explicit fuel so that it
is structural recursion; fuel at least the list length always suffices. -/

def lruEvictFuel {α : Type} (cfg : LRUConfig α) :
    Nat → List (String × LRUEntry α) → List (String × LRUEntry α)
  | 0, l => l
  | fuel + 1, l =>
      if l.length ≤ cfg.maxEntries ∧ totalSize l ≤ cfg.maxSize then l
      else lruEvictFuel cfg fuel l.dropLast

/-- Eviction until both bounds hold. -/

def lruEvict {α : Type} (cfg : LRUConfig α) (l : List (String × LRUEntry α)) :
    List (String × LRUEntry α) :=
  lruEvictFuel cfg l.length l

/-- Modelled from the spec: set of the bounded store — replaces any entry
for the key, inserts the new entry as most recent with its computed size
and its TTL (the explicit one, else the default), then evicts least
recently used entries until both bounds hold. -/

def lruSet {α : Type} (cfg : LRUConfig α) (now : Nat) (key : String) (v : α)
    (ttlOpt : Option Nat) (s : LRUState α) : LRUState α :=
  ⟨lruEvict cfg
    ((key, { value := v, size := cfg.sizeCalc v, insertedAt := now,
             ttl := ttlOpt.getD cfg.defaultTTL }) :: mapDelete key s.entries)⟩

/-- Modelled from the spec: get of the bounded store — an absent key gives
nothing; an entry whose TTL has elapsed since insertion is treated as
absent and purged; a live entry is returned and refreshed to most recently
used. -/

def lruGet {α : Type} (now : Nat) (key : String) (s : LRUState α) :
    Option α × LRUState α :=
  match mapGet key s.entries with
  | none => (none, s)
  | some e =>
      if now < e.insertedAt + e.ttl then
        (some e.value, ⟨(key, e) :: mapDelete key s.entries⟩)
      else
        (none, ⟨mapDelete key s.entries⟩)

/-- Configuration of the response cache from CACHE_CONFIG: 500 entries,
50 MiB, default TTL CACHE_TTL.general, sizes from the JSON estimator. -/

def responseCacheConfig : LRUConfig CachedResponse :=
  { maxEntries := 500, maxSize := 50 * 1024 * 1024,
    defaultTTL := CACHE_TTL.general, sizeCalc := responseSizeCalculation }

/-- Configuration of the file cache from CACHE_CONFIG: 100 entries,
100 MiB, default TTL CACHE_TTL.file, sizes as recorded in each entry. -/

def fileCacheConfig : LRUConfig CachedFile :=
  { maxEntries := 100, maxSize := 100 * 1024 * 1024,
    defaultTTL := CACHE_TTL.file, sizeCalc := fun f => f.size }

/-- getCachedResponse from the cache service: a lookup in the response
cache at the current time. -/

def getCachedResponse (now : Nat) (key : String) (s : LRUState CachedResponse) :
    Option CachedResponse × LRUState CachedResponse :=
  lruGet now key s

/-- TTL option setCachedResponse hands to the store: the ttlMs argument is
passed through only when truthy, so an absent or zero ttlMs yields no
override and the store default applies. -/

def responseTTLOption (ttlMs : Option Nat) : Option Nat :=
  match ttlMs with
  | some t => if t = 0 then none else some t
  | none => none

/-- setCachedResponse from the cache service: stores the data with the
current timestamp; a custom TTL is passed through only when truthy — an
absent or zero ttlMs falls back to the cache default. -/

def setCachedResponse (now : Nat) (key : String) (data : CacheValue)
    (model : String) (ttlMs : Option Nat) (s : LRUState CachedResponse) :
    LRUState CachedResponse :=
  lruSet responseCacheConfig now key
    { data := data, timestamp := now, model := model }
    (responseTTLOption ttlMs) s

/-- getCachedFile from the cache service. -/

def getCachedFile (now : Nat) (hash : String) (s : LRUState CachedFile) :
    Option CachedFile × LRUState CachedFile :=
  lruGet now hash s

/-- setCachedFile from the cache service: no per-entry TTL override. -/

def setCachedFile (now : Nat) (hash : String) (file : CachedFile)
    (s : LRUState CachedFile) : LRUState CachedFile :=
  lruSet fileCacheConfig now hash file none s

/-- A get or set operation against one bounded cache, with the time at
which it runs. -/

inductive CacheOp (α : Type) where
  | get (now : Nat) (key : String)
  | set (now : Nat) (key : String) (v : α) (ttl : Option Nat)

/-- Application of one operation to the store. -/

def applyOp {α : Type} (cfg : LRUConfig α) : CacheOp α → LRUState α → LRUState α
  | .get now key, s => (lruGet now key s).2
  | .set now key v ttl, s => lruSet cfg now key v ttl s

/-- Runs a sequence of operations left to right. -/

def runOps {α : Type} (cfg : LRUConfig α) : List (CacheOp α) → LRUState α → LRUState α
  | [], s => s
  | op :: rest, s => runOps cfg rest (applyOp cfg op s)

/-- Both capacity bounds of the configuration hold of the state. -/

def boundsOK {α : Type} (cfg : LRUConfig α) (s : LRUState α) : Prop :=
  s.entries.length ≤ cfg.maxEntries ∧ totalSize s.entries ≤ cfg.maxSize

/-- Entries whose TTL has not yet elapsed. -/

def liveEntries {α : Type} (now : Nat) (s : LRUState α) :
    List (String × LRUEntry α) :=
  s.entries.filter (fun e => now < e.2.insertedAt + e.2.ttl)

/-- Snapshot returned by getCacheStats. -/

structure CacheStats where
  responseSize : Nat
  responseCalculatedSize : Nat
  fileSize : Nat
  fileCalculatedSize : Nat
  inFlightRequests : Nat
deriving DecidableEq

/-- Modelled from the spec: getCacheStats — a read-only snapshot (it is a
pure function of the state and returns no new state, and being total it
never throws) whose entry counts and aggregate sizes cover the live
entries of each cache, together with the in-flight registry count. -/

def getCacheStats (now : Nat) (resp : LRUState CachedResponse)
    (file : LRUState CachedFile) (ded : DedupState) : CacheStats :=
  { responseSize := (liveEntries now resp).length
    responseCalculatedSize := totalSize (liveEntries now resp)
    fileSize := (liveEntries now file).length
    fileCalculatedSize := totalSize (liveEntries now file)
    inFlightRequests := ded.inFlight.length }

/-- The response cache bounded to 2 entries, for the eviction scenario. -/
def twoEntryConfig : LRUConfig CachedResponse :=
  { responseCacheConfig with maxEntries := 2 }

/-- A small serializable response value used by the scenarios. -/

def demoResponse (m : String) : CachedResponse :=
  { data := CacheValue.json (Json.str "v"), timestamp := 0, model := m }

/-- State of the 2-entry cache after inserting keys a, b, c in order at
time 0 with no intervening reads. -/

def abcState : LRUState CachedResponse :=
  runOps twoEntryConfig
    [CacheOp.set 0 "a" (demoResponse "m") none,
      CacheOp.set 0 "b" (demoResponse "m") none,
      CacheOp.set 0 "c" (demoResponse "m") none]
    LRUState.empty

/-- Effective TTL with which setCachedResponse stores an entry: an absent
or zero ttlMs falls back to the 30-minute default. -/
def effectiveResponseTTL (ttlMs : Option Nat) : Nat :=
  match ttlMs with
  | some t => if t = 0 then CACHE_TTL.general else t
  | none => CACHE_TTL.general

/-- A one-entry response cache state used by the statistics witness. -/
def statsWitnessState : LRUState CachedResponse :=
  ⟨[("a", { value := demoResponse "m", size := 3, insertedAt := 0, ttl := 1000 })]⟩

theorem mapGet_mapSet_self {α : Type} (k : String) (v : α) (m : List (String × α)) :
    mapGet k (mapSet k v m) = some v := by
  simp [mapGet, mapSet, List.find?]

theorem mapGet_mapDelete_self {α : Type} (k : String) (m : List (String × α)) :
    mapGet k (mapDelete k m) = none := by
  induction m with
  | nil => rfl
  | cons e t ih =>
      show mapGet k (List.filter (fun x => x.1 != k) (e :: t)) = none
      rw [List.filter_cons]
      by_cases h : e.1 = k
      · have hb : (e.1 != k) = false := by simp [h]
        rw [hb]
        exact ih
      · have hb : (e.1 != k) = true := bne_iff_ne.mpr h
        rw [hb]
        show (List.find? (fun x => x.1 == k) (e :: List.filter _ t)).map (fun x => x.2) = none
        rw [List.find?_cons_of_neg]
        · exact ih
        · simp [h]

theorem deduplicatedRequest_hit {key : String} {s : DedupState} {p : Nat}
    (h : mapGet key s.inFlight = some p) :
    deduplicatedRequest key s = (p, s) := by
  simp [deduplicatedRequest, h]

theorem dedupCalls_hit {key : String} {s : DedupState} {p : Nat}
    (h : mapGet key s.inFlight = some p) (c : Nat) :
    dedupCalls key c s = (List.replicate c p, s) := by
  induction c with
  | zero => rfl
  | succ n ih => simp [dedupCalls, deduplicatedRequest_hit h, ih, List.replicate]

/-- C1: for a key with no in-flight entry, C >= 1 calls to
deduplicatedRequest made before the fetch settles invoke the fetcher
exactly once, and every caller is handed the very same promise (hence all
observe the same eventual success value or the same eventual failure);
callers that find an existing in-flight entry return that same pending
promise without invoking their own fetcher. -/

theorem dedup_coalesces (key : String) (s : DedupState) (c : Nat)
    (hfree : mapGet key s.inFlight = none) (hc : 1 ≤ c) :
    fetchCount key (dedupCalls key c s).2 = fetchCount key s + 1 ∧
    ∀ p ∈ (dedupCalls key c s).1, p = s.nextPromise := by
  obtain ⟨n, rfl⟩ : ∃ n, c = n + 1 := ⟨c - 1, (Nat.succ_pred_eq_of_pos hc).symm⟩
  set s1 : DedupState :=
    { inFlight := mapSet key s.nextPromise s.inFlight
      fetchLog := key :: s.fetchLog
      nextPromise := s.nextPromise + 1 } with hs1
  have hstep : deduplicatedRequest key s = (s.nextPromise, s1) := by
    simp [deduplicatedRequest, hfree, hs1]
  have hhit : mapGet key s1.inFlight = some s.nextPromise :=
    mapGet_mapSet_self key s.nextPromise s.inFlight
  have hrun : dedupCalls key (n + 1) s =
      (s.nextPromise :: List.replicate n s.nextPromise, s1) := by
    simp [dedupCalls, hstep, dedupCalls_hit hhit]
  rw [hrun]
  constructor
  · simp [hs1, fetchCount, List.count_cons]
  · intro p hp
    rcases List.mem_cons.mp hp with h | h
    · exact h
    · exact List.eq_of_mem_replicate h

/-- Witness for C1 at a concrete input: three callers on a fresh key. -/

theorem dedup_coalesces_witness :
    mapGet "k" DedupState.initial.inFlight = none ∧ 1 ≤ 3 ∧
    fetchCount "k" (dedupCalls "k" 3 DedupState.initial).2 =
      fetchCount "k" DedupState.initial + 1 :=
  ⟨by decide, by decide,
    (dedup_coalesces "k" DedupState.initial 3 (by decide) (by decide)).1⟩

/-- C2 counterexample: in the source, the fetcher is invoked strictly
before the promise is inserted into the registry, so steps of the
fetcher's execution (its synchronous prefix) do occur between the registry
check and the registry insertion — the claimed ordering is reversed. -/
theorem dedup_register_order_counterexample :
    dedupMissEvents.indexOf DedupEvent.fetcherInvoked <
      dedupMissEvents.indexOf DedupEvent.registryInsert := by decide

/-- C2 amended: the registry entry is inserted after the fetcher is
invoked, not before; but check, invocation and insertion all lie in one
synchronous block with no suspension point, so no other call to
deduplicatedRequest can run between the check and the insertion: a second
call for the same key arriving after the first still causes exactly one
further fetch in total. -/

theorem dedup_register_order_amended :
    (dedupMissEvents.indexOf DedupEvent.registryCheck <
        dedupMissEvents.indexOf DedupEvent.fetcherInvoked ∧
      dedupMissEvents.indexOf DedupEvent.fetcherInvoked <
        dedupMissEvents.indexOf DedupEvent.registryInsert ∧
      DedupEvent.suspend ∉ dedupMissEvents) ∧
    ∀ key s, mapGet key s.inFlight = none →
      fetchCount key (deduplicatedRequest key (deduplicatedRequest key s).2).2 =
        fetchCount key s + 1 := by
  refine ⟨by decide, ?_⟩
  intro key s hfree
  have hstep : deduplicatedRequest key s =
      (s.nextPromise,
        { inFlight := mapSet key s.nextPromise s.inFlight
          fetchLog := key :: s.fetchLog
          nextPromise := s.nextPromise + 1 }) := by
    simp [deduplicatedRequest, hfree]
  have hhit : mapGet key (deduplicatedRequest key s).2.inFlight = some s.nextPromise := by
    rw [hstep]
    exact mapGet_mapSet_self key s.nextPromise s.inFlight
  rw [deduplicatedRequest_hit hhit, hstep]
  simp [fetchCount, List.count_cons]

/-- Witness for C2 amended at a concrete input. -/

theorem dedup_register_order_amended_witness :
    mapGet "k" DedupState.initial.inFlight = none ∧
    fetchCount "k"
        (deduplicatedRequest "k" (deduplicatedRequest "k" DedupState.initial).2).2 =
      fetchCount "k" DedupState.initial + 1 :=
  ⟨by decide, dedup_register_order_amended.2 "k" DedupState.initial (by decide)⟩

/-- C3: when the fetcher settles, with either outcome, the registry entry
for the key is removed unconditionally, and a subsequent
deduplicatedRequest call on the same key invokes the fetcher again rather
than being blocked by a stale entry. -/

theorem settle_clears_registry (key : String) (o : Outcome) (s : DedupState) :
    mapGet key (settleFetch key o s).inFlight = none ∧
    fetchCount key (deduplicatedRequest key (settleFetch key o s)).2 =
      fetchCount key s + 1 := by
  have hfree : mapGet key (settleFetch key o s).inFlight = none :=
    mapGet_mapDelete_self key s.inFlight
  refine ⟨hfree, ?_⟩
  simp [deduplicatedRequest, settleFetch, mapGet_mapDelete_self, fetchCount,
    List.count_cons]

/-- C7: the TTL selector implements the spec's ordered first-match rules —
deep research yields the longest duration (2 hours), else last-day recency
yields the shortest (5 minutes), else last-week recency yields the same 30
minutes as the default, else the 30-minute default — and the three
durations are the claimed ones. -/
theorem determineCacheTTL_matches_spec :
    (∀ r, determineCacheTTL r = selectTTL_spec r) ∧
    CACHE_TTL.deepResearch = 7200000 ∧ CACHE_TTL.volatile = 300000 ∧
    CACHE_TTL.general = 1800000 := by
  refine ⟨fun r => ?_, rfl, rfl, rfl⟩
  simp only [determineCacheTTL, selectTTL_spec, CACHE_TTL.deepResearch,
    CACHE_TTL.volatile, CACHE_TTL.general]

theorem sha256hex_length (s : String) : (sha256hex s).length = 64 := by
  simp [sha256hex, String.length]

theorem serializeFields_eq_map (fs : List (String × Json)) :
    serializeFields fs = fs.map (fun f => (f.1, serializeJson f.2)) := by
  induction fs with
  | nil => rfl
  | cons f t ih => cases f with
    | mk k v => simp [serializeFields, ih]

theorem sorted_eq_of_perm_of_nodupkeys :
    ∀ (l1 l2 : List (String × String)), l1.Perm l2 →
      l1.Sorted keyLE → l2.Sorted keyLE → (l1.map Prod.fst).Nodup → l1 = l2
  | [], l2, hperm, _, _, _ => (List.Perm.nil_eq hperm).symm ▸ rfl
  | a :: t1, l2, hperm, hs1, hs2, hnd => by
    cases l2 with
    | nil => exact absurd hperm.symm (by simp)
    | cons b t2 =>
        obtain ⟨hs1head, hs1tail⟩ := List.sorted_cons.mp hs1
        obtain ⟨hs2head, hs2tail⟩ := List.sorted_cons.mp hs2
        have hab : b = a := by
          have hbmem : b ∈ a :: t1 := hperm.mem_iff.mpr (List.mem_cons_self b t2)
          rcases List.mem_cons.mp hbmem with h | h
          · exact h
          · have hamem : a ∈ b :: t2 := hperm.mem_iff.mp (List.mem_cons_self a t1)
            have hkey : a.1 = b.1 := by
              rcases List.mem_cons.mp hamem with h' | h'
              · exact congrArg Prod.fst h'
              · exact le_antisymm (hs1head b h) (hs2head a h')
            exfalso
            have : b.1 ∈ t1.map Prod.fst := List.mem_map_of_mem Prod.fst h
            rw [← hkey] at this
            exact (List.nodup_cons.mp hnd).1 this
        subst hab
        have htails : t1.Perm t2 := hperm.cons_inv
        have := sorted_eq_of_perm_of_nodupkeys t1 t2 htails hs1tail hs2tail
          (List.nodup_cons.mp hnd).2
        rw [this]

/-- C5: generateCacheKey is pure and order-independent — two parameter
records equal as sets of key/value pairs but in different insertion order
hash to the same cache key — and every key is a fixed-length (64-character)
opaque hex string, the hash of a stable, order-independent serialization. -/

theorem generateCacheKey_canonical (P1 P2 : List (String × Json))
    (hnd : (P1.map Prod.fst).Nodup) (hperm : P1.Perm P2) :
    generateCacheKey P1 = generateCacheKey P2 ∧
    ∀ P : List (String × Json), (generateCacheKey P).length = 64 := by
  refine ⟨?_, fun P => sha256hex_length _⟩
  have hfieldsperm : (serializeFields P1).Perm (serializeFields P2) := by
    rw [serializeFields_eq_map, serializeFields_eq_map]
    exact hperm.map _
  have hndf : ((serializeFields P1).map Prod.fst).Nodup := by
    rw [serializeFields_eq_map, List.map_map]
    exact hnd
  have hsortperm : (sortFields (serializeFields P1)).Perm (sortFields (serializeFields P2)) :=
    ((List.perm_insertionSort keyLE _).trans hfieldsperm).trans
      (List.perm_insertionSort keyLE _).symm
  have hndsorted : ((sortFields (serializeFields P1)).map Prod.fst).Nodup :=
    ((List.perm_insertionSort keyLE _).map Prod.fst).nodup_iff.mpr hndf
  have hsorteq : sortFields (serializeFields P1) = sortFields (serializeFields P2) :=
    sorted_eq_of_perm_of_nodupkeys _ _ hsortperm
      (List.sorted_insertionSort keyLE _) (List.sorted_insertionSort keyLE _) hndsorted
  unfold generateCacheKey stableStringify
  rw [serializeJson]
  rw [serializeJson]
  rw [hsorteq]

/-- Witness for C5 at concrete inputs: two two-field records in swapped
insertion order. -/

theorem generateCacheKey_canonical_witness :
    (([("query", Json.str "q"), ("model", Json.str "sonar")].map Prod.fst).Nodup ∧
      List.Perm [("query", Json.str "q"), ("model", Json.str "sonar")]
        [("model", Json.str "sonar"), ("query", Json.str "q")]) ∧
    generateCacheKey [("query", Json.str "q"), ("model", Json.str "sonar")] =
      generateCacheKey [("model", Json.str "sonar"), ("query", Json.str "q")] :=
  ⟨⟨by decide, List.Perm.swap _ _ _⟩,
    (generateCacheKey_canonical _ _ (by decide) (List.Perm.swap _ _ _)).1⟩

/-- C10: getFileContentHash hashes a Buffer through its base64 encoding —
for every byte sequence, the hash of the Buffer equals the hash of the
base64 string of those bytes — so a Buffer and a string holding the
identical raw bytes (witnessed at bytes "abc") produce two different
attachment-cache keys and do not share a cache slot. -/
theorem getFileContentHash_base64_asymmetry :
    (∀ bytes : List Nat,
      getFileContentHash (FileContent.buffer bytes) =
        getFileContentHash (FileContent.text (base64Encode bytes))) ∧
    getFileContentHash (FileContent.buffer [97, 98, 99]) ≠
      getFileContentHash (FileContent.text (bytesAsString [97, 98, 99])) := by
  constructor
  · intro bytes
    rfl
  · decide

theorem totalSize_cons {α : Type} (e : String × LRUEntry α)
    (l : List (String × LRUEntry α)) :
    totalSize (e :: l) = e.2.size + totalSize l := by
  simp [totalSize]

theorem totalSize_filter_le {α : Type} (p : String × LRUEntry α → Bool)
    (l : List (String × LRUEntry α)) :
    totalSize (l.filter p) ≤ totalSize l := by
  induction l with
  | nil => simp [totalSize]
  | cons e t ih =>
      rw [List.filter_cons]
      by_cases h : p e
      · rw [if_pos h, totalSize_cons, totalSize_cons]
        omega
      · rw [if_neg h, totalSize_cons]
        omega

theorem length_filter_lt_of_mem {α : Type} {p : α → Bool} {x : α} {l : List α}
    (hx : x ∈ l) (hpx : p x = false) : (l.filter p).length < l.length := by
  induction l with
  | nil => cases hx
  | cons e t ih =>
      rw [List.filter_cons]
      rcases List.mem_cons.mp hx with rfl | hx'
      · rw [hpx]
        simp only [List.length_cons]
        exact Nat.lt_succ_of_le (List.length_filter_le p t)
      · by_cases h : p e
        · rw [if_pos h]
          simpa using ih hx'
        · rw [if_neg h]
          exact Nat.lt_succ_of_lt (ih hx')

theorem mapGet_some_mem {α : Type} {k : String} {l : List (String × α)} {v : α}
    (h : mapGet k l = some v) : (k, v) ∈ l := by
  unfold mapGet at h
  cases hf : l.find? (fun e => e.1 == k) with
  | none => rw [hf] at h; cases h
  | some q =>
      rw [hf] at h
      have hq : q ∈ l := List.mem_of_find?_eq_some hf
      have hk : q.1 = k := by
        have := List.find?_some hf
        exact beq_iff_eq.mp this
      have hv : q.2 = v := by
        simpa using h
      have : q = (k, v) := by
        cases q
        simp_all
      rw [← this]
      exact hq

theorem totalSize_cons_mapDelete_le {α : Type} {q : String × LRUEntry α}
    {l : List (String × LRUEntry α)} (hmem : q ∈ l) :
    totalSize (q :: mapDelete q.1 l) ≤ totalSize l := by
  induction l with
  | nil => cases hmem
  | cons e t ih =>
      simp only [mapDelete] at ih ⊢
      rw [List.filter_cons]
      rcases List.mem_cons.mp hmem with heq | hmem'
      · subst heq
        simp only [bne_self_eq_false, Bool.false_eq_true, if_false]
        rw [totalSize_cons, totalSize_cons]
        exact Nat.add_le_add_left (totalSize_filter_le _ t) _
      · by_cases h : (e.1 != q.1) = true
        · rw [if_pos h, totalSize_cons, totalSize_cons, totalSize_cons]
          have := ih hmem'
          rw [totalSize_cons] at this
          omega
        · rw [if_neg h, totalSize_cons, totalSize_cons]
          have := ih hmem'
          rw [totalSize_cons] at this
          omega

theorem length_cons_mapDelete_le {α : Type} {q : String × α}
    {l : List (String × α)} (hmem : q ∈ l) :
    (q :: mapDelete q.1 l).length ≤ l.length := by
  have := length_filter_lt_of_mem (p := fun e => e.1 != q.1) hmem (by simp)
  simp only [List.length_cons, mapDelete]
  omega

theorem lruEvictFuel_bounds {α : Type} (cfg : LRUConfig α) :
    ∀ (fuel : Nat) (l : List (String × LRUEntry α)), l.length ≤ fuel →
      (lruEvictFuel cfg fuel l).length ≤ cfg.maxEntries ∧
        totalSize (lruEvictFuel cfg fuel l) ≤ cfg.maxSize := by
  intro fuel
  induction fuel with
  | zero =>
      intro l hl
      have : l = [] := List.length_eq_zero.mp (Nat.le_zero.mp hl)
      subst this
      simp [lruEvictFuel, totalSize]
  | succ n ih =>
      intro l hl
      rw [lruEvictFuel]
      by_cases h : l.length ≤ cfg.maxEntries ∧ totalSize l ≤ cfg.maxSize
      · rw [if_pos h]
        exact h
      · rw [if_neg h]
        apply ih
        have hne : l ≠ [] := by
          intro hnil
          subst hnil
          exact h ⟨by simp, by simp [totalSize]⟩
        have : l.dropLast.length = l.length - 1 := List.length_dropLast l
        have hpos : 0 < l.length := List.length_pos.mpr hne
        omega

theorem lruEvict_bounds {α : Type} (cfg : LRUConfig α)
    (l : List (String × LRUEntry α)) :
    (lruEvict cfg l).length ≤ cfg.maxEntries ∧
      totalSize (lruEvict cfg l) ≤ cfg.maxSize :=
  lruEvictFuel_bounds cfg l.length l (Nat.le_refl _)

theorem lruSet_bounds {α : Type} (cfg : LRUConfig α) (now : Nat) (key : String)
    (v : α) (ttlOpt : Option Nat) (s : LRUState α) :
    boundsOK cfg (lruSet cfg now key v ttlOpt s) := by
  unfold boundsOK lruSet
  exact lruEvict_bounds cfg _

theorem lruGet_preserves_bounds {α : Type} {cfg : LRUConfig α} (now : Nat)
    (key : String) {s : LRUState α} (h : boundsOK cfg s) :
    boundsOK cfg (lruGet now key s).2 := by
  obtain ⟨hlen, hsize⟩ := h
  unfold lruGet
  split
  · exact ⟨hlen, hsize⟩
  · next e hget =>
      have hmem : (key, e) ∈ s.entries := mapGet_some_mem hget
      by_cases hlive : now < e.insertedAt + e.ttl
      · rw [if_pos hlive]
        refine ⟨?_, ?_⟩
        · exact le_trans (length_cons_mapDelete_le hmem) hlen
        · exact le_trans (totalSize_cons_mapDelete_le hmem) hsize
      · rw [if_neg hlive]
        refine ⟨?_, ?_⟩
        · simp only [mapDelete]
          exact le_trans (List.length_filter_le _ _) hlen
        · simp only [mapDelete]
          exact le_trans (totalSize_filter_le _ _) hsize

theorem runOps_bounds {α : Type} (cfg : LRUConfig α) (ops : List (CacheOp α)) :
    ∀ s : LRUState α, boundsOK cfg s → boundsOK cfg (runOps cfg ops s) := by
  induction ops with
  | nil => intro s h; exact h
  | cons op rest ih =>
      intro s h
      rw [runOps]
      apply ih
      cases op with
      | get now key => exact lruGet_preserves_bounds now key h
      | set now key v ttl => exact lruSet_bounds cfg now key v ttl s

/-- C4: after every sequence of set and get operations starting from the
empty response cache, the cache holds at most the configured 500 entries
and at most the configured 50 MiB aggregate approximate size — insertions
that would exceed either bound evict least-recently-used entries until both
hold — and in a cache bounded to 2 entries, inserting keys a, b, c in
order with no intervening reads leaves a absent while b and c are still
present. -/
theorem responseCache_bounded_lru :
    (∀ ops : List (CacheOp CachedResponse),
      (runOps responseCacheConfig ops LRUState.empty).entries.length ≤ 500 ∧
        totalSize (runOps responseCacheConfig ops LRUState.empty).entries ≤
          50 * 1024 * 1024) ∧
    ((lruGet 1 "a" abcState).1.isNone = true ∧
      (lruGet 1 "b" abcState).1.isSome = true ∧
      (lruGet 1 "c" abcState).1.isSome = true) := by
  constructor
  · intro ops
    exact runOps_bounds responseCacheConfig ops LRUState.empty
      ⟨by simp [LRUState.empty], by simp [totalSize, LRUState.empty]⟩
  · refine ⟨?_, ?_, ?_⟩ <;> decide

theorem mapGet_cons_self {α : Type} (q : String × α) (t : List (String × α)) :
    mapGet q.1 (q :: t) = some q.2 := by
  simp [mapGet, List.find?]

theorem mapGet_cons_here {α : Type} (k : String) (v : α) (t : List (String × α)) :
    mapGet k ((k, v) :: t) = some v := by
  simp [mapGet, List.find?]

theorem mapGet_cons_ne {α : Type} {k : String} {q : String × α}
    (t : List (String × α)) (h : q.1 ≠ k) : mapGet k (q :: t) = mapGet k t := by
  unfold mapGet
  rw [List.find?_cons_of_neg]
  simp [h]

theorem mapGet_dropLast {α : Type} (k : String) :
    ∀ l : List (String × α),
      mapGet k l.dropLast = none ∨ mapGet k l.dropLast = mapGet k l
  | [] => Or.inl rfl
  | [_] => Or.inl rfl
  | a :: b :: t => by
      have ih := mapGet_dropLast k (b :: t)
      rw [List.dropLast_cons₂]
      by_cases h : a.1 = k
      · right
        have h1 : mapGet k (a :: (b :: t).dropLast) = some a.2 := by
          rw [← h]
          exact mapGet_cons_self a _
        have h2 : mapGet k (a :: b :: t) = some a.2 := by
          rw [← h]
          exact mapGet_cons_self a _
        rw [h1, h2]
      · rw [mapGet_cons_ne _ h, mapGet_cons_ne _ h]
        exact ih

theorem mapGet_lruEvictFuel {α : Type} (cfg : LRUConfig α) (k : String) :
    ∀ (fuel : Nat) (l : List (String × LRUEntry α)),
      mapGet k (lruEvictFuel cfg fuel l) = none ∨
        mapGet k (lruEvictFuel cfg fuel l) = mapGet k l := by
  intro fuel
  induction fuel with
  | zero => intro l; right; rfl
  | succ n ih =>
      intro l
      rw [lruEvictFuel]
      by_cases h : l.length ≤ cfg.maxEntries ∧ totalSize l ≤ cfg.maxSize
      · rw [if_pos h]; right; rfl
      · rw [if_neg h]
        rcases ih l.dropLast with h1 | h1
        · left; exact h1
        · rcases mapGet_dropLast k l with h2 | h2
          · left; rw [h1]; exact h2
          · right; rw [h1]; exact h2

theorem mapGet_lruSet {α : Type} (cfg : LRUConfig α) (now : Nat) (key : String)
    (v : α) (ttlOpt : Option Nat) (s : LRUState α) :
    mapGet key (lruSet cfg now key v ttlOpt s).entries = none ∨
      mapGet key (lruSet cfg now key v ttlOpt s).entries =
        some { value := v, size := cfg.sizeCalc v, insertedAt := now,
               ttl := ttlOpt.getD cfg.defaultTTL } := by
  unfold lruSet lruEvict
  rcases mapGet_lruEvictFuel cfg key _ _ with h | h
  · left; exact h
  · right
    rw [h]
    exact mapGet_cons_self _ _

/-- C6 counterexample: an entry inserted via setCachedResponse with
TTL = 0 at time 0 is still reported present one minute later: the zero TTL
is falsy, so the set falls back to the 30-minute default instead of
storing an already-expired entry, contradicting the claim that such an
entry is absent on the next lookup. -/
theorem ttl_zero_entry_present :
    ((getCachedResponse 60000 "k"
        (setCachedResponse 0 "k" (CacheValue.json (Json.str "v")) "m" (some 0)
          LRUState.empty)).1).isSome = true := by decide

theorem responseTTLOption_getD (ttlMs : Option Nat) :
    (responseTTLOption ttlMs).getD responseCacheConfig.defaultTTL =
      effectiveResponseTTL ttlMs := by
  cases ttlMs with
  | none => rfl
  | some t =>
      by_cases h : t = 0
      · simp [responseTTLOption, effectiveResponseTTL, h]
        rfl
      · simp [responseTTLOption, effectiveResponseTTL, h]

theorem lruGet_after_set_expired {α : Type} (cfg : LRUConfig α) (t0 t1 : Nat)
    (key : String) (v : α) (ttlOpt : Option Nat) (s : LRUState α)
    (h : t0 + ttlOpt.getD cfg.defaultTTL ≤ t1) :
    (lruGet t1 key (lruSet cfg t0 key v ttlOpt s)).1 = none := by
  unfold lruGet
  split
  · rfl
  · next e hm =>
      rcases mapGet_lruSet cfg t0 key v ttlOpt s with h2 | h2
      · rw [h2] at hm; cases hm
      · rw [h2] at hm
        injection hm with he
        subst he
        rw [if_neg (show ¬ (t1 < t0 + ttlOpt.getD cfg.defaultTTL) by omega)]

/-- C6 amended: a cache entry is reported absent by getCachedResponse once
its effective TTL has elapsed since insertion, where the effective TTL is
the explicit positive ttlMs, while a zero or absent ttlMs falls back to
the default 30 minutes — so an entry inserted with TTL = 0 is not absent
on the next lookup but instead lives for the default 30 minutes
(witnessed one minute after insertion). -/

theorem expired_entry_absent (s : LRUState CachedResponse) (key : String)
    (data : CacheValue) (model : String) (ttlMs : Option Nat) (t0 t1 : Nat)
    (helapsed : t0 + effectiveResponseTTL ttlMs ≤ t1) :
    (getCachedResponse t1 key (setCachedResponse t0 key data model ttlMs s)).1 = none ∧
    ((getCachedResponse 60000 "k"
        (setCachedResponse 0 "k" (CacheValue.json (Json.str "v")) "m" (some 0)
          LRUState.empty)).1).isSome = true := by
  refine ⟨?_, by decide⟩
  show (lruGet t1 key (lruSet responseCacheConfig t0 key
      { data := data, timestamp := t0, model := model }
      (responseTTLOption ttlMs) s)).1 = none
  apply lruGet_after_set_expired
  rw [responseTTLOption_getD]
  exact helapsed

/-- Witness for C6 amended at a concrete input: TTL 5 ms, lookup 10 ms
after insertion. -/

theorem expired_entry_absent_witness :
    0 + effectiveResponseTTL (some 5) ≤ 10 ∧
    ((getCachedResponse 10 "k"
        (setCachedResponse 0 "k" (CacheValue.json (Json.str "v")) "m" (some 5)
          LRUState.empty)).1 = none ∧
      ((getCachedResponse 60000 "k"
          (setCachedResponse 0 "k" (CacheValue.json (Json.str "v")) "m" (some 0)
            LRUState.empty)).1).isSome = true) :=
  ⟨by decide,
    expired_entry_absent LRUState.empty "k" (CacheValue.json (Json.str "v")) "m"
      (some 5) 0 10 (by decide)⟩

/-- Eviction never removes the most recently used entry as long as one
entry fits the bounds: the front of the list survives the eviction loop. -/

theorem lruEvictFuel_front {α : Type} (cfg : LRUConfig α)
    (h1 : 1 ≤ cfg.maxEntries) :
    ∀ (fuel : Nat) (e : String × LRUEntry α) (t : List (String × LRUEntry α)),
      e.2.size ≤ cfg.maxSize →
      ∃ t', lruEvictFuel cfg fuel (e :: t) = e :: t' := by
  intro fuel
  induction fuel with
  | zero => intro e t _; exact ⟨t, rfl⟩
  | succ n ih =>
      intro e t h2
      rw [lruEvictFuel]
      by_cases h : (e :: t).length ≤ cfg.maxEntries ∧ totalSize (e :: t) ≤ cfg.maxSize
      · rw [if_pos h]; exact ⟨t, rfl⟩
      · rw [if_neg h]
        cases t with
        | nil =>
            exfalso
            apply h
            constructor
            · simpa using h1
            · rw [totalSize_cons]
              simpa [totalSize] using h2
        | cons b t2 =>
            rw [List.dropLast_cons₂]
            exact ih e (b :: t2).dropLast h2

/-- A value written by set is retrievable right away when a single entry
fits the bounds and the effective TTL is positive. -/

theorem lruGet_after_set_present {α : Type} (cfg : LRUConfig α) (now : Nat)
    (key : String) (v : α) (ttlOpt : Option Nat) (s : LRUState α)
    (h1 : 1 ≤ cfg.maxEntries) (h2 : cfg.sizeCalc v ≤ cfg.maxSize)
    (h3 : 0 < ttlOpt.getD cfg.defaultTTL) :
    (lruGet now key (lruSet cfg now key v ttlOpt s)).1 = some v := by
  obtain ⟨t', ht'⟩ := lruEvictFuel_front cfg h1
    ((key, { value := v, size := cfg.sizeCalc v, insertedAt := now,
             ttl := ttlOpt.getD cfg.defaultTTL }) :: mapDelete key s.entries).length
    (key, { value := v, size := cfg.sizeCalc v, insertedAt := now,
            ttl := ttlOpt.getD cfg.defaultTTL })
    (mapDelete key s.entries) h2
  unfold lruSet lruEvict lruGet
  split
  · next hnone =>
      rw [ht', mapGet_cons_here] at hnone
      cases hnone
  · next e hm =>
      rw [ht', mapGet_cons_here] at hm
      injection hm with he
      subst he
      split
      · rfl
      · next hlt => exact absurd (Nat.lt_add_of_pos_right h3) hlt

/-- C8: the per-entry size estimator recovers a serialization failure with
the fixed fallback of 1000 bytes, and setCachedResponse (a total function,
so it never raises) still succeeds for such a value: immediately after the
set, the entry is retrievable with the stored data. -/

theorem sizeCalculation_fallback (v : CacheValue) (hv : tryStringify v = none) :
    (∀ ts model, responseSizeCalculation ⟨v, ts, model⟩ = 1000) ∧
    ∀ (s : LRUState CachedResponse) (key model : String) (now : Nat),
      (getCachedResponse now key (setCachedResponse now key v model none s)).1 =
        some ⟨v, now, model⟩ := by
  have hsize : ∀ ts model, responseSizeCalculation ⟨v, ts, model⟩ = 1000 := by
    intro ts model
    unfold responseSizeCalculation
    rw [hv]
  refine ⟨hsize, ?_⟩
  intro s key model now
  show (lruGet now key (lruSet responseCacheConfig now key
      { data := v, timestamp := now, model := model }
      (responseTTLOption none) s)).1 = some ⟨v, now, model⟩
  apply lruGet_after_set_present
  · decide
  · show responseSizeCalculation _ ≤ _
    rw [hsize]
    decide
  · decide

/-- Witness for C8 at a concrete input: a non-serializable value stored and
read back at time 0. -/

theorem sizeCalculation_fallback_witness :
    tryStringify CacheValue.nonSerializable = none ∧
    (getCachedResponse 0 "k"
        (setCachedResponse 0 "k" CacheValue.nonSerializable "m" none
          LRUState.empty)).1 =
      some ⟨CacheValue.nonSerializable, 0, "m"⟩ :=
  ⟨rfl,
    (sizeCalculation_fallback CacheValue.nonSerializable rfl).2
      LRUState.empty "k" "m" 0⟩

theorem lruGet_isSome_cons_self {α : Type} (now : Nat) (e : String × LRUEntry α)
    (t : List (String × LRUEntry α)) :
    ((lruGet now e.1 ⟨e :: t⟩).1).isSome =
      decide (now < e.2.insertedAt + e.2.ttl) := by
  simp only [lruGet, mapGet_cons_self]
  by_cases h : now < e.2.insertedAt + e.2.ttl
  · simp [h]
  · simp [h]

theorem lruGet_fst_cons_ne {α : Type} (now : Nat) {k : String}
    {e : String × LRUEntry α} {t : List (String × LRUEntry α)} (h : e.1 ≠ k) :
    (lruGet now k ⟨e :: t⟩).1 = (lruGet now k ⟨t⟩).1 := by
  simp only [lruGet, mapGet_cons_ne t h]
  cases hm : mapGet k t with
  | none => rfl
  | some e' =>
      by_cases hl : now < e'.insertedAt + e'.ttl
      · simp [hl]
      · simp [hl]

theorem live_count_eq_retrievable {α : Type} (now : Nat) :
    ∀ l : List (String × LRUEntry α), (l.map Prod.fst).Nodup →
      (l.filter (fun e => now < e.2.insertedAt + e.2.ttl)).length =
        ((l.map Prod.fst).filter
          (fun k => ((lruGet now k ⟨l⟩).1).isSome)).length := by
  intro l
  induction l with
  | nil => intro _; rfl
  | cons e t ih =>
      intro hnd
      have hne : e.1 ∉ t.map Prod.fst := (List.nodup_cons.mp hnd).1
      have htail : (t.map Prod.fst).filter
            (fun k => ((lruGet now k ⟨e :: t⟩).1).isSome) =
          (t.map Prod.fst).filter (fun k => ((lruGet now k ⟨t⟩).1).isSome) := by
        apply List.filter_congr
        intro k hk
        have hkne : e.1 ≠ k := fun hEq => hne (hEq ▸ hk)
        rw [lruGet_fst_cons_ne now hkne]
      rw [List.map_cons, List.filter_cons, List.filter_cons,
        lruGet_isSome_cons_self now e t, htail]
      by_cases hl : now < e.2.insertedAt + e.2.ttl
      · simp [hl, ih (List.nodup_cons.mp hnd).2]
      · simp [hl, ih (List.nodup_cons.mp hnd).2]

/-- C9: getCacheStats is read-only — a pure function of the cache and
registry states that returns only a snapshot — and total, so it never
throws; its reported entry counts equal the number of keys whose entries
are live (non-expired, non-evicted) and actually retrievable via the
corresponding get operation, and its in-flight count equals the registry
size. -/

theorem getCacheStats_live_counts (now : Nat) (resp : LRUState CachedResponse)
    (file : LRUState CachedFile) (ded : DedupState)
    (hr : (resp.entries.map Prod.fst).Nodup)
    (hf : (file.entries.map Prod.fst).Nodup) :
    (getCacheStats now resp file ded).responseSize =
      ((resp.entries.map Prod.fst).filter
        (fun k => ((getCachedResponse now k resp).1).isSome)).length ∧
    (getCacheStats now resp file ded).fileSize =
      ((file.entries.map Prod.fst).filter
        (fun k => ((getCachedFile now k file).1).isSome)).length ∧
    (getCacheStats now resp file ded).inFlightRequests = ded.inFlight.length := by
  refine ⟨?_, ?_, rfl⟩
  · exact live_count_eq_retrievable now resp.entries hr
  · exact live_count_eq_retrievable now file.entries hf

/-- Witness for C9 at a concrete input: a one-entry response cache, an
empty file cache and an empty registry. -/
theorem getCacheStats_live_counts_witness :
    ((statsWitnessState.entries.map Prod.fst).Nodup ∧
      (((LRUState.empty : LRUState CachedFile)).entries.map Prod.fst).Nodup) ∧
    (getCacheStats 1 statsWitnessState LRUState.empty
        DedupState.initial).responseSize =
      ((statsWitnessState.entries.map Prod.fst).filter
        (fun k => ((getCachedResponse 1 k statsWitnessState).1).isSome)).length :=
  ⟨⟨by decide, by decide⟩,
    (getCacheStats_live_counts 1 statsWitnessState LRUState.empty
      DedupState.initial (by decide) (by decide)).1⟩

end CacheService
